import Mathlib

set_option linter.unusedVariables false

/-!
Verification of the AIDE run controller (`aide/run.py`).

The development embeds, as executable Lean definitions:
  * the tree-structured journal data model (`Node`, `Journal`) together with
    best-node selection and pre-order traversal — the `Journal` class itself
    is not part of the visible source, so it is modelled from the spec;
  * the two tree renderers `journal_to_rich_tree` and
    `journal_to_string_tree` (translated from the source; failure of a
    Python attribute dereference on an absent metric is made explicit with
    `Option`);
  * the execution proxy `exec_callback`;
  * the control flow of `run()` (SIGALRM deadline, `while` loop,
    `try/except SignalException/finally`, the `atexit` cleanup hook) as an
    executable trace semantics `runModel`, parametrised by the behaviour of
    the external step function, the checkpointer, and the point at which the
    one-shot alarm elapses.
-/

namespace Aide

/-! ## Controller model: events, errors, parameters -/

/-- Errors that can travel through `run()`'s `try/except/finally`.
`signalExn` is the `SignalException` raised by `timeout_handler` on SIGALRM;
`stepErr` is any other error raised by `agent.step`; `ckptErr` an error
raised by `save_run`; `initErr` an error raised while constructing the
`Interpreter` (before `global_step` is first assigned). -/
inductive Err where
  | signalExn
  | stepErr
  | ckptErr
  | initErr
  deriving DecidableEq, Repr

/-- Observable trace events of one execution of `run()`.
`stepCall i` is the `i`-th invocation of `agent.step`; `loopCkpt s` a
`save_run` performed inside the loop with journal size `s`; `finalCkpt s`
the `save_run` in the `finally` block; `cancelDelivered` the delivery of
the SIGALRM cancellation; `timeoutLog` the `logger.info` in the
`except SignalException` handler; `disarm` the `signal.alarm(0)` call. -/
inductive Ev where
  | stepCall (i : Nat)
  | loopCkpt (size : Nat)
  | finalCkpt (size : Nat)
  | cancelDelivered
  | timeoutLog
  | disarm
  deriving DecidableEq, Repr

/-- Behaviour of one invocation of the external step function: it commits
`n` nodes to the journal and then either returns or raises an error. -/
inductive StepBeh where
  | ok (n : Nat)
  | raiseErr (n : Nat)
  deriving DecidableEq, Repr

/-- The single point in the modelled execution at which the one-shot alarm
elapses (if it is still armed when that point is reached).
`duringStep i k`: the SIGALRM arrives inside the `i`-th step call after it
has committed `k` nodes.  `duringInit`: it arrives while the `Interpreter`
is being constructed, before `global_step` is first assigned.
`duringFinalCkpt`: it arrives inside the `save_run` of the `finally`
block. -/
inductive FirePoint where
  | never
  | duringInit
  | duringStep (i k : Nat)
  | duringFinalCkpt
  deriving DecidableEq, Repr

/-- Parameters of one modelled execution of `run()`:
the step budget `cfg.agent.steps`, the behaviour of each step invocation,
whether each `save_run` call raises (indexed by call count), when the alarm
elapses, and whether `Interpreter` construction raises. -/
structure Params where
  budget : Nat
  stepBeh : Nat → StepBeh
  ckptBeh : Nat → Bool
  fire : FirePoint
  initFails : Bool

/-- The mutable state threaded through the `while` loop of `run()`:
`journal` is `len(journal)`, `gstep` the Python variable `global_step`,
`ckptIdx` counts `save_run` calls, `armed` whether a SIGALRM delivery is
still pending, `trace` the events so far. -/
structure LoopSt where
  journal : Nat
  gstep : Nat
  ckptIdx : Nat
  armed : Bool
  trace : List Ev
  deriving DecidableEq, Repr

/-- Result of running the `while` loop: normal exit, an exception
propagating out of the loop body, or fuel exhaustion (a model artifact:
the real loop would simply keep iterating). -/
inductive LoopRes where
  | done (st : LoopSt)
  | raised (e : Err) (st : LoopSt)
  | fuelOut
  deriving DecidableEq, Repr

/-- Whether the alarm delivers inside step call `i` (it does when the fire
point is `duringStep i k` and the alarm is still armed); returns the number
of nodes the interrupted step had already committed. -/
def stepDelivers (p : Params) (i : Nat) (armed : Bool) : Option Nat :=
  match p.fire with
  | FirePoint.duringStep j k => if j = i ∧ armed = true then some k else none
  | _ => none

/-- The `while global_step < cfg.agent.steps` loop of `run()`:
invoke `agent.step`, then `save_run(cfg, journal)`, then
`global_step = len(journal)`.  A SIGALRM delivered inside the step call
raises `signalExn` (the work the step had committed stays in the journal);
an error from the step or from `save_run` propagates. -/
def loopModel (p : Params) : Nat → Nat → LoopSt → LoopRes
  | 0, _, st =>
    if st.gstep < p.budget then LoopRes.fuelOut else LoopRes.done st
  | fuel+1, i, st =>
    if st.gstep < p.budget then
      let st1 := { st with trace := st.trace ++ [Ev.stepCall i] }
      match stepDelivers p i st1.armed with
      | some k =>
        LoopRes.raised Err.signalExn
          { st1 with journal := st1.journal + k, armed := false,
                     trace := st1.trace ++ [Ev.cancelDelivered] }
      | none =>
        match p.stepBeh i with
        | StepBeh.raiseErr n =>
          LoopRes.raised Err.stepErr { st1 with journal := st1.journal + n }
        | StepBeh.ok n =>
          let st2 := { st1 with journal := st1.journal + n }
          let st3 := { st2 with
                        trace := st2.trace ++ [Ev.loopCkpt st2.journal],
                        ckptIdx := st2.ckptIdx + 1 }
          if p.ckptBeh st2.ckptIdx then
            LoopRes.raised Err.ckptErr st3
          else
            loopModel p fuel (i+1) { st3 with gstep := st3.journal }
    else LoopRes.done st

/-- Outcome of the `atexit` cleanup hook: `deleted` when it removed the
workspace, `kept` when it left it untouched, `nameError` when it crashed
because the closed-over `global_step` was never assigned. -/
inductive CleanupRes where
  | deleted
  | kept
  | nameError
  deriving DecidableEq, Repr

/-- Observable result of one execution of `run()` followed by the `atexit`
hook.  `exit = none` means `run()` returned normally; `exit = some e` means
the exception `e` propagated out of `run()`.  `gstep` is the final value of
the Python variable `global_step` (`none` = never assigned), `journal` the
final journal size, `armed` whether a SIGALRM delivery is still possible
after `run()` finished. -/
structure RunResult where
  exit : Option Err
  journal : Nat
  gstep : Option Nat
  armed : Bool
  trace : List Ev
  cleanup : CleanupRes
  deriving DecidableEq, Repr

/-- The `finally` block of `run()`: call `save_run(cfg, journal)`, then
`signal.alarm(0)`.  An exception raised inside the `finally` (a SIGALRM
elapsing during the final `save_run`, or the checkpoint itself failing)
replaces any in-flight exception, per Python semantics, and skips the
`signal.alarm(0)` that follows it.  Returns the propagated exception (if
any), the final armed flag, and the extended trace. -/
def finallyBlock (p : Params) (armed : Bool) (journal : Nat) (ckptIdx : Nat)
    (trace : List Ev) (inflight : Option Err) : Option Err × Bool × List Ev :=
  let trace1 := trace ++ [Ev.finalCkpt journal]
  if p.fire = FirePoint.duringFinalCkpt ∧ armed = true then
    (some Err.signalExn, false, trace1 ++ [Ev.cancelDelivered])
  else if p.ckptBeh ckptIdx then
    (some Err.ckptErr, armed, trace1)
  else
    (inflight, false, trace1 ++ [Ev.disarm])

/-- The `atexit` cleanup hook:
`if global_step == 0: shutil.rmtree(cfg.workspace_dir)`.
It reads the closed-over variable `global_step`; if `run()` terminated
before the first assignment `global_step = len(journal)`, the name is
unbound and the hook raises `NameError` instead of checking. -/
def cleanupHook (gstep : Option Nat) : CleanupRes :=
  match gstep with
  | none => CleanupRes.nameError
  | some g => if g = 0 then CleanupRes.deleted else CleanupRes.kept

/-- The loop state at the top of the `while` loop on first entry: empty
journal, `global_step = len(journal) = 0`, no checkpoints yet, alarm
armed, no events. -/
def initLoopSt : LoopSt :=
  { journal := 0, gstep := 0, ckptIdx := 0, armed := true, trace := [] }

/-- Recognizes the final-checkpoint event. -/
def Ev.isFinalCkpt : Ev → Bool
  | Ev.finalCkpt _ => true
  | _ => false

/-- Recognizes a step-invocation event. -/
def Ev.isStepCall : Ev → Bool
  | Ev.stepCall _ => true
  | _ => false

/-- Model of `run()` from `signal.alarm(...)` onwards, followed by the
`atexit` hook.  The alarm is armed, then inside `try`: the `Interpreter`
is constructed (this is where `duringInit` fires, caught by
`except SignalException`, and where `initFails` raises uncaught),
`global_step = len(journal)` is assigned, and the loop runs.  A
`SignalException` from the `try` body is caught once and logged; any other
exception reaches `finally` in flight.  Returns `none` when the loop runs
out of fuel (model artifact). -/
def runModel (p : Params) (fuel : Nat) : Option RunResult :=
  if p.fire = FirePoint.duringInit then
    let r := finallyBlock p false 0 0 [Ev.cancelDelivered, Ev.timeoutLog] none
    some { exit := r.1, journal := 0, gstep := none, armed := r.2.1,
           trace := r.2.2, cleanup := cleanupHook none }
  else if p.initFails then
    let r := finallyBlock p true 0 0 [] (some Err.initErr)
    some { exit := r.1, journal := 0, gstep := none, armed := r.2.1,
           trace := r.2.2, cleanup := cleanupHook none }
  else
    match loopModel p fuel 0 initLoopSt with
    | LoopRes.fuelOut => none
    | LoopRes.done st =>
      let r := finallyBlock p st.armed st.journal st.ckptIdx st.trace none
      some { exit := r.1, journal := st.journal, gstep := some st.gstep,
             armed := r.2.1, trace := r.2.2,
             cleanup := cleanupHook (some st.gstep) }
    | LoopRes.raised e st =>
      let inflight : Option Err :=
        if e = Err.signalExn then none else some e
      let trace0 :=
        if e = Err.signalExn then st.trace ++ [Ev.timeoutLog] else st.trace
      let r := finallyBlock p st.armed st.journal st.ckptIdx trace0 inflight
      some { exit := r.1, journal := st.journal, gstep := some st.gstep,
             armed := r.2.1, trace := r.2.2,
             cleanup := cleanupHook (some st.gstep) }

/-! ## Journal data model

The `Journal` / `Node` classes live in `aide/journal.py`, which is not part
of the visible source; they are modelled from the spec (§3, §4.1): a node
has a unique identifier assigned monotonically at insertion, an immutable
`is_buggy` flag, an optional numeric metric, and an insertion-ordered list
of children; a journal is the insertion-ordered list of draft (root)
nodes.  The numeric metric and its `:.3f` rendering are abstracted to
`Int` and `toString`; none of the verified properties depend on the
numeral text. -/

/-- Modelled from the spec: a journal node (`aide/journal.py` `Node`):
identifier (unique, monotone in insertion order), `is_buggy` flag,
optional metric, insertion-ordered children. -/
inductive Node where
  | mk (id : Nat) (is_buggy : Bool) (metric : Option Int) (children : List Node)

def Node.id : Node → Nat
  | Node.mk i _ _ _ => i

def Node.is_buggy : Node → Bool
  | Node.mk _ b _ _ => b

def Node.metric : Node → Option Int
  | Node.mk _ _ m _ => m

def Node.children : Node → List Node
  | Node.mk _ _ _ cs => cs

/-- Modelled from the spec: a journal (`aide/journal.py` `Journal`) is the
insertion-ordered sequence of draft (root) nodes. -/
structure Journal where
  draft_nodes : List Node

mutual
/-- Number of nodes in the subtree rooted at a node. -/
def Node.size : Node → Nat
  | Node.mk _ _ _ cs => 1 + sizeList cs
/-- Number of nodes in a forest. -/
def sizeList : List Node → Nat
  | [] => 0
  | c :: cs => Node.size c + sizeList cs
end

/-- Modelled from the spec: `len(journal)` / `journal.size()` — total node
count across the whole tree. -/
def Journal.size (j : Journal) : Nat := sizeList j.draft_nodes

mutual
/-- Pre-order walk of one subtree, paired with depths. -/
def Node.traverseD : Nat → Node → List (Nat × Node)
  | d, Node.mk i b m cs => (d, Node.mk i b m cs) :: traverseDList (d+1) cs
/-- Pre-order walk of a forest, paired with depths. -/
def traverseDList : Nat → List Node → List (Nat × Node)
  | _, [] => []
  | d, c :: cs => Node.traverseD d c ++ traverseDList d cs
end

/-- Modelled from the spec: `journal.traverse()` — pre-order walk over
draft nodes and their descendants, draft nodes in insertion order,
children in insertion order, yielding `(depth, node)` pairs. -/
def Journal.traverse (j : Journal) : List (Nat × Node) :=
  traverseDList 0 j.draft_nodes

/-- One fold step of best-node selection: a node replaces the incumbent
when it is non-buggy, scored, and either strictly better or equal with an
earlier insertion (smaller id). -/
def betterCandidate (best : Option Node) (n : Node) : Option Node :=
  if n.is_buggy then best
  else
    match n.metric with
    | none => best
    | some v =>
      match best with
      | none => some n
      | some b =>
        match b.metric with
        | none => some n
        | some bv =>
          if bv < v || (bv = v && n.id < b.id) then some n else best

/-- Modelled from the spec: `journal.get_best_node()` — among all nodes
with `is_buggy = false` and a present metric, the maximum metric wins,
ties broken by earliest insertion order; `none` when no candidate
exists. -/
def Journal.get_best_node (j : Journal) : Option Node :=
  (j.traverse.map Prod.snd).foldl betterCandidate none

/-- The identity (`is`) of the best node, as its unique id. -/
def bestId (j : Journal) : Option Nat :=
  j.get_best_node.map Node.id

/-! ## The two renderers (`aide/run.py`)

Python dereferences `node.metric.value` for every non-buggy node; when the
metric is absent that dereference raises, which the embedding makes
explicit by returning `none`. -/

/-- A rich `Tree`: a label and a list of subtrees, in insertion order. -/
inductive RTree where
  | node (label : String) (children : List RTree)

def RTree.label : RTree → String
  | RTree.node s _ => s

def RTree.children : RTree → List RTree
  | RTree.node _ ts => ts

mutual
/-- Pre-order list of the labels of a rich tree. -/
def RTree.flat : RTree → List String
  | RTree.node s ts => s :: flatList ts
/-- Pre-order list of the labels of a forest of rich trees. -/
def flatList : List RTree → List String
  | [] => []
  | t :: ts => RTree.flat t ++ flatList ts
end

/-- The label `journal_to_rich_tree.append_rec` computes for one node
(`b` is the identity of the best node): buggy nodes get `[red]◍ bug`;
otherwise `style = "bold "` when the node is the best node and the metric
value is rendered, with a `(best)` marker on the best node.  `none` when
the source would raise on `node.metric.value`. -/
def richLabel (b : Option Nat) (n : Node) : Option String :=
  if n.is_buggy then some "[red]◍ bug"
  else
    match n.metric with
    | none => none
    | some v =>
      if some n.id = b then
        some ("[bold green]● " ++ toString v ++ " (best)")
      else
        some ("[green]● " ++ toString v)

mutual
/-- `append_rec` of `journal_to_rich_tree`: compute the node's label,
add a subtree for it, and recurse over the children in order. -/
def appendRecRich (b : Option Nat) : Node → Option RTree
  | Node.mk i bg m cs =>
    match richLabel b (Node.mk i bg m cs) with
    | none => none
    | some s =>
      match appendRecRichList b cs with
      | none => none
      | some ts => some (RTree.node s ts)
/-- The `for child in node.children: append_rec(child, subtree)` loop. -/
def appendRecRichList (b : Option Nat) : List Node → Option (List RTree)
  | [] => some []
  | c :: cs =>
    match appendRecRich b c with
    | none => none
    | some t =>
      match appendRecRichList b cs with
      | none => none
      | some ts => some (t :: ts)
end

/-- `journal_to_rich_tree`: compute the best node, then build the tree
rooted at the `[bold blue]Solution tree` label by appending each draft
node in order. -/
def journal_to_rich_tree (j : Journal) : Option RTree :=
  let b := bestId j
  match appendRecRichList b j.draft_nodes with
  | none => none
  | some ts => some (RTree.node "[bold blue]Solution tree" ts)

/-- The line `journal_to_string_tree.append_rec` emits for one node at a
given indent level: buggy nodes get `◍ bug (ID: …)`; otherwise the metric
is rendered with a `(best)` marker on the best node.  `none` when the
source would raise on `node.metric.value`. -/
def stringLine (b : Option Nat) (level : Nat) (n : Node) : Option String :=
  let indent := String.join (List.replicate level "  ")
  if n.is_buggy then
    some (indent ++ "◍ bug (ID: " ++ toString n.id ++ ")\n")
  else
    match n.metric with
    | none => none
    | some v =>
      if some n.id = b then
        some (indent ++ "● " ++ toString v ++ " (best) (ID: " ++
              toString n.id ++ ")\n")
      else
        some (indent ++ "● " ++ toString v ++ " (ID: " ++
              toString n.id ++ ")\n")

mutual
/-- `append_rec` of `journal_to_string_tree`: append the node's own line,
then the lines of its children at the next indent level, in order. -/
def appendRecStr (b : Option Nat) : Nat → Node → Option String
  | level, Node.mk i bg m cs =>
    match stringLine b level (Node.mk i bg m cs) with
    | none => none
    | some s =>
      match appendRecStrList b (level+1) cs with
      | none => none
      | some rest => some (s ++ rest)
/-- The `for n in …: append_rec(n, level)` loop over a forest. -/
def appendRecStrList (b : Option Nat) : Nat → List Node → Option String
  | _, [] => some ""
  | level, c :: cs =>
    match appendRecStr b level c with
    | none => none
    | some s =>
      match appendRecStrList b level cs with
      | none => none
      | some rest => some (s ++ rest)
end

/-- `journal_to_string_tree`: compute the best node, start from the
`Solution tree` header, and append every draft node at level 0 in
order. -/
def journal_to_string_tree (j : Journal) : Option String :=
  let b := bestId j
  match appendRecStrList b 0 j.draft_nodes with
  | none => none
  | some body => some ("Solution tree\n" ++ body)

mutual
/-- Whether every non-buggy node in a subtree has a present metric — the
totality precondition of both renderers. -/
def Node.renderOk : Node → Bool
  | Node.mk _ bg m cs => (bg || m.isSome) && renderOkList cs
/-- `Node.renderOk` over a forest. -/
def renderOkList : List Node → Bool
  | [] => true
  | c :: cs => Node.renderOk c && renderOkList cs
end

/-- The totality precondition over the whole journal. -/
def Journal.renderOk (j : Journal) : Bool :=
  renderOkList j.draft_nodes

/-- Concatenation of a list of strings in order. -/
def strConcat : List String → String
  | [] => ""
  | s :: ss => s ++ strConcat ss

/-! ## Execution proxy (`exec_callback` in `run()`) -/

/-- The two `status.update` events surrounding an execution. -/
inductive ExecEv where
  | beginExec
  | endExec
  deriving DecidableEq, Repr

/-- `exec_callback`: update the status to `Executing code...`, forward the
call to `interpreter.run` with the same arguments, update the status back
to `Generating code...`, and return the result.  An exception from the
wrapped call propagates immediately, skipping the second status update;
the emitted events are returned alongside the forwarded outcome. -/
def exec_callback {α β ε : Type} (run : α → Except ε β) (a : α) :
    List ExecEv × Except ε β :=
  let evs := [ExecEv.beginExec]
  match run a with
  | Except.error e => (evs, Except.error e)
  | Except.ok r => (evs ++ [ExecEv.endExec], Except.ok r)

/-! ## Statement-level predicates -/

/-- What one run of the `while` loop may add to the trace: only
step-invocation, loop-checkpoint and cancellation-delivery events (never a
final checkpoint, a disarm, or a timeout log); the cancellation is
delivered at most once, delivering it leaves the guard unarmed, and the
armed flag is untouched otherwise. -/
def loopTraceInv (st st' : LoopSt) : Prop :=
  ∃ ext, st'.trace = st.trace ++ ext ∧
    (∀ e ∈ ext, Ev.isFinalCkpt e = false ∧ e ≠ Ev.disarm ∧ e ≠ Ev.timeoutLog) ∧
    ext.count Ev.cancelDelivered ≤ 1 ∧
    (Ev.cancelDelivered ∈ ext → st'.armed = false) ∧
    (Ev.cancelDelivered ∉ ext → st'.armed = st.armed)

/-- The two renderers succeed and visit exactly the nodes of the pre-order
`traverse()` walk in exactly its order: the rich tree's pre-order label
list is the header followed by the per-node rich labels in traverse
order, the string tree is the header line followed by the concatenation
of the per-node lines in traverse order, and the walk touches `size()`
many nodes, i.e. every node exactly once. -/
def RenderAgreeProp (j : Journal) : Prop :=
  (∃ t, journal_to_rich_tree j = some t ∧
     RTree.flat t = "[bold blue]Solution tree" ::
       j.traverse.map (fun p => (richLabel (bestId j) p.2).getD "")) ∧
  journal_to_string_tree j = some ("Solution tree\n" ++
     strConcat (j.traverse.map (fun p => (stringLine (bestId j) p.1 p.2).getD ""))) ∧
  j.traverse.length = j.size

/-- Both renderers mark the best node distinctly: its rich label differs
from every buggy label and from every non-best scored label, and its
string-tree line differs from a buggy line at the same indent and from
the line the same node would get were it not the best. -/
def bestMarkersDistinct : Prop :=
  (∀ (b : Option Nat) (n m : Node), n.is_buggy = false → some n.id = b →
     m.is_buggy = true → richLabel b n ≠ richLabel b m) ∧
  (∀ (b : Option Nat) (n m : Node), n.is_buggy = false → some n.id = b →
     n.metric.isSome = true → m.is_buggy = false → some m.id ≠ b →
     richLabel b n ≠ richLabel b m) ∧
  (∀ (b : Option Nat) (lvl : Nat) (n m : Node), n.is_buggy = false →
     some n.id = b → m.is_buggy = true →
     stringLine b lvl n ≠ stringLine b lvl m) ∧
  (∀ (b b2 : Option Nat) (lvl : Nat) (n : Node), n.is_buggy = false →
     n.metric.isSome = true → some n.id = b → some n.id ≠ b2 →
     stringLine b lvl n ≠ stringLine b2 lvl n)

/-! ## Concrete inputs used by witnesses and counterexamples -/

/-- Budget 1; the first step commits one node and then raises: the run is
interrupted after its step committed a node to the journal. -/
def pC1cx : Params :=
  { budget := 1, stepBeh := fun _ => StepBeh.raiseErr 1,
    ckptBeh := fun _ => false, fire := FirePoint.never, initFails := false }

/-- Budget 1, one well-behaved step: a normal completed run. -/
def pC1w : Params :=
  { budget := 1, stepBeh := fun _ => StepBeh.ok 1,
    ckptBeh := fun _ => false, fire := FirePoint.never, initFails := false }

/-- Budget 0; every `save_run` call raises, so the final checkpoint
fails. -/
def pC2cx : Params :=
  { budget := 0, stepBeh := fun _ => StepBeh.ok 1,
    ckptBeh := fun _ => true, fire := FirePoint.never, initFails := false }

/-- Budget 1, one well-behaved step: a normal completed run. -/
def pC2w : Params :=
  { budget := 1, stepBeh := fun _ => StepBeh.ok 1,
    ckptBeh := fun _ => false, fire := FirePoint.never, initFails := false }

/-- The first step raises without committing anything, and every
`save_run` raises too: a step error with a failing final checkpoint. -/
def pC3cx : Params :=
  { budget := 1, stepBeh := fun _ => StepBeh.raiseErr 0,
    ckptBeh := fun _ => true, fire := FirePoint.never, initFails := false }

/-- The first step raises without committing anything; checkpoints
succeed. -/
def pC3w : Params :=
  { budget := 1, stepBeh := fun _ => StepBeh.raiseErr 0,
    ckptBeh := fun _ => false, fire := FirePoint.never, initFails := false }

/-- Budget 0 (the loop completes normally at once); the one-shot alarm
elapses during the final checkpoint. -/
def pC4cx : Params :=
  { budget := 0, stepBeh := fun _ => StepBeh.ok 1,
    ckptBeh := fun _ => false, fire := FirePoint.duringFinalCkpt,
    initFails := false }

/-- The alarm elapses inside the first step call before it commits
anything. -/
def pC4w : Params :=
  { budget := 1, stepBeh := fun _ => StepBeh.ok 1,
    ckptBeh := fun _ => false, fire := FirePoint.duringStep 0 0,
    initFails := false }

/-- Budget 1 with a well-behaved step; the alarm elapses during the final
checkpoint after the loop completed normally. -/
def pC5cx : Params :=
  { budget := 1, stepBeh := fun _ => StepBeh.ok 1,
    ckptBeh := fun _ => false, fire := FirePoint.duringFinalCkpt,
    initFails := false }

/-- Budget 2; the alarm elapses inside the second step call before it
commits anything. -/
def pC5w : Params :=
  { budget := 2, stepBeh := fun _ => StepBeh.ok 1,
    ckptBeh := fun _ => false, fire := FirePoint.duringStep 1 0,
    initFails := false }

/-- Budget 3, every step commits exactly one node, nothing fails. -/
def pC6w : Params :=
  { budget := 3, stepBeh := fun _ => StepBeh.ok 1,
    ckptBeh := fun _ => false, fire := FirePoint.never, initFails := false }

/-- The alarm elapses while the `Interpreter` is being constructed,
before `global_step` is first assigned. -/
def pC10w : Params :=
  { budget := 2, stepBeh := fun _ => StepBeh.ok 1,
    ckptBeh := fun _ => false, fire := FirePoint.duringInit,
    initFails := false }

/-- Scenario journal: draft node `A` (id 0, metric 2) with children `B`
(id 1, metric 4, the best node) and `C` (id 2, buggy). -/
def jW : Journal :=
  { draft_nodes := [Node.mk 0 false (some 2)
      [Node.mk 1 false (some 4) [], Node.mk 2 true none []]] }

/-- A journal whose single root is non-buggy but has no metric. -/
def jBad : Journal :=
  { draft_nodes := [Node.mk 0 false none []] }

/-- The observable result of running `pC1w` (computed by the model). -/
def rC1w : RunResult :=
  { exit := none, journal := 1, gstep := some 1, armed := false,
    trace := [Ev.stepCall 0, Ev.loopCkpt 1, Ev.finalCkpt 1, Ev.disarm],
    cleanup := CleanupRes.kept }

/-- The observable result of running `pC2w` (computed by the model). -/
def rC2w : RunResult :=
  { exit := none, journal := 1, gstep := some 1, armed := false,
    trace := [Ev.stepCall 0, Ev.loopCkpt 1, Ev.finalCkpt 1, Ev.disarm],
    cleanup := CleanupRes.kept }

/-- The observable result of running `pC4w` (computed by the model). -/
def rC4w : RunResult :=
  { exit := none, journal := 0, gstep := some 0, armed := false,
    trace := [Ev.stepCall 0, Ev.cancelDelivered, Ev.timeoutLog,
      Ev.finalCkpt 0, Ev.disarm],
    cleanup := CleanupRes.deleted }

/-- The loop state in which `pC3w`'s first step raises its error. -/
def stC3w : LoopSt :=
  { journal := 0, gstep := 0, ckptIdx := 0, armed := true,
    trace := [Ev.stepCall 0] }

/-- The loop state in which `pC5w`'s deadline cancellation is raised. -/
def stC5w : LoopSt :=
  { journal := 1, gstep := 1, ckptIdx := 1, armed := false,
    trace := [Ev.stepCall 0, Ev.loopCkpt 1, Ev.stepCall 1,
      Ev.cancelDelivered] }

/-! ## Lemmas about the journal and the renderers -/

mutual
theorem traverseD_length : ∀ (d : Nat) (n : Node),
    (Node.traverseD d n).length = n.size
  | d, Node.mk i b m cs => by
    simp [Node.traverseD, Node.size, traverseDList_length (d+1) cs,
      Nat.add_comm]
theorem traverseDList_length : ∀ (d : Nat) (ns : List Node),
    (traverseDList d ns).length = sizeList ns
  | d, [] => by simp [traverseDList, sizeList]
  | d, c :: cs => by
    simp [traverseDList, sizeList, traverseD_length d c,
      traverseDList_length d cs]
end

theorem richLabel_isSome (b : Option Nat) (i : Nat) (bg : Bool)
    (m : Option Int) (cs : List Node) :
    (richLabel b (Node.mk i bg m cs)).isSome = (bg || m.isSome) := by
  by_cases hib : some i = b <;>
    cases bg <;> cases m <;>
      simp [richLabel, Node.is_buggy, Node.metric, Node.id, hib]

theorem stringLine_isSome (b : Option Nat) (lvl : Nat) (i : Nat) (bg : Bool)
    (m : Option Int) (cs : List Node) :
    (stringLine b lvl (Node.mk i bg m cs)).isSome = (bg || m.isSome) := by
  by_cases hib : some i = b <;>
    cases bg <;> cases m <;>
      simp [stringLine, Node.is_buggy, Node.metric, Node.id, hib]

mutual
theorem appendRecRich_isSome : ∀ (b : Option Nat) (n : Node),
    (appendRecRich b n).isSome = n.renderOk
  | b, Node.mk i bg m cs => by
    have hl := richLabel_isSome b i bg m cs
    have hcs := appendRecRichList_isSome b cs
    simp only [appendRecRich, Node.renderOk]
    cases h1 : richLabel b (Node.mk i bg m cs) <;>
      cases h2 : appendRecRichList b cs <;>
        rw [h1] at hl <;> rw [h2] at hcs <;>
          simp_all
theorem appendRecRichList_isSome : ∀ (b : Option Nat) (ns : List Node),
    (appendRecRichList b ns).isSome = renderOkList ns
  | b, [] => by simp [appendRecRichList, renderOkList]
  | b, c :: cs => by
    have hc := appendRecRich_isSome b c
    have hcs := appendRecRichList_isSome b cs
    simp only [appendRecRichList, renderOkList]
    cases h1 : appendRecRich b c <;>
      cases h2 : appendRecRichList b cs <;>
        rw [h1] at hc <;> rw [h2] at hcs <;>
          simp_all
end

mutual
theorem appendRecStr_isSome : ∀ (b : Option Nat) (lvl : Nat) (n : Node),
    (appendRecStr b lvl n).isSome = n.renderOk
  | b, lvl, Node.mk i bg m cs => by
    have hl := stringLine_isSome b lvl i bg m cs
    have hcs := appendRecStrList_isSome b (lvl+1) cs
    simp only [appendRecStr, Node.renderOk]
    cases h1 : stringLine b lvl (Node.mk i bg m cs) <;>
      cases h2 : appendRecStrList b (lvl+1) cs <;>
        rw [h1] at hl <;> rw [h2] at hcs <;>
          simp_all
theorem appendRecStrList_isSome : ∀ (b : Option Nat) (lvl : Nat)
    (ns : List Node), (appendRecStrList b lvl ns).isSome = renderOkList ns
  | b, lvl, [] => by simp [appendRecStrList, renderOkList]
  | b, lvl, c :: cs => by
    have hc := appendRecStr_isSome b lvl c
    have hcs := appendRecStrList_isSome b lvl cs
    simp only [appendRecStrList, renderOkList]
    cases h1 : appendRecStr b lvl c <;>
      cases h2 : appendRecStrList b lvl cs <;>
        rw [h1] at hc <;> rw [h2] at hcs <;>
          simp_all
end

theorem strConcat_append (l m : List String) :
    strConcat (l ++ m) = strConcat l ++ strConcat m := by
  induction l with
  | nil => simp [strConcat]
  | cons s ss ih =>
    simp [strConcat, ih, String.append_assoc]

mutual
theorem appendRecRich_flat : ∀ (b : Option Nat) (d : Nat) (n : Node),
    n.renderOk = true →
    ∃ t, appendRecRich b n = some t ∧
      RTree.flat t = (Node.traverseD d n).map
        (fun p => (richLabel b p.2).getD "")
  | b, d, Node.mk i bg m cs => fun hok => by
    have hob : (bg || m.isSome) = true ∧ renderOkList cs = true := by
      simpa [Node.renderOk, Bool.and_eq_true] using hok
    have hl : (richLabel b (Node.mk i bg m cs)).isSome = true := by
      rw [richLabel_isSome b i bg m cs, hob.1]
    obtain ⟨s, hs⟩ := Option.isSome_iff_exists.mp hl
    obtain ⟨ts, hts, hflat⟩ := appendRecRichList_flat b (d+1) cs hob.2
    refine ⟨RTree.node s ts, ?_, ?_⟩
    · simp [appendRecRich, hs, hts]
    · simp [RTree.flat, hflat, Node.traverseD, hs]
theorem appendRecRichList_flat : ∀ (b : Option Nat) (d : Nat)
    (ns : List Node), renderOkList ns = true →
    ∃ ts, appendRecRichList b ns = some ts ∧
      flatList ts = (traverseDList d ns).map
        (fun p => (richLabel b p.2).getD "")
  | b, d, [] => fun _ => ⟨[], rfl, by simp [flatList, traverseDList]⟩
  | b, d, c :: cs => fun hok => by
    have hob : c.renderOk = true ∧ renderOkList cs = true := by
      simpa [renderOkList, Bool.and_eq_true] using hok
    obtain ⟨t, ht, hf⟩ := appendRecRich_flat b d c hob.1
    obtain ⟨ts, hts, hfs⟩ := appendRecRichList_flat b d cs hob.2
    refine ⟨t :: ts, ?_, ?_⟩
    · simp [appendRecRichList, ht, hts]
    · simp [flatList, hf, hfs, traverseDList]
end

mutual
theorem appendRecStr_flat : ∀ (b : Option Nat) (lvl : Nat) (n : Node),
    n.renderOk = true →
    ∃ s, appendRecStr b lvl n = some s ∧
      s = strConcat ((Node.traverseD lvl n).map
        (fun p => (stringLine b p.1 p.2).getD ""))
  | b, lvl, Node.mk i bg m cs => fun hok => by
    have hob : (bg || m.isSome) = true ∧ renderOkList cs = true := by
      simpa [Node.renderOk, Bool.and_eq_true] using hok
    have hl : (stringLine b lvl (Node.mk i bg m cs)).isSome = true := by
      rw [stringLine_isSome b lvl i bg m cs, hob.1]
    obtain ⟨s0, hs⟩ := Option.isSome_iff_exists.mp hl
    obtain ⟨rest, hrest, hr⟩ := appendRecStrList_flat b (lvl+1) cs hob.2
    refine ⟨s0 ++ rest, ?_, ?_⟩
    · simp [appendRecStr, hs, hrest]
    · simp [Node.traverseD, strConcat, hs, hr]
theorem appendRecStrList_flat : ∀ (b : Option Nat) (lvl : Nat)
    (ns : List Node), renderOkList ns = true →
    ∃ s, appendRecStrList b lvl ns = some s ∧
      s = strConcat ((traverseDList lvl ns).map
        (fun p => (stringLine b p.1 p.2).getD ""))
  | b, lvl, [] => fun _ => ⟨"", rfl, by simp [traverseDList, strConcat]⟩
  | b, lvl, c :: cs => fun hok => by
    have hob : c.renderOk = true ∧ renderOkList cs = true := by
      simpa [renderOkList, Bool.and_eq_true] using hok
    obtain ⟨s, hc, hf⟩ := appendRecStr_flat b lvl c hob.1
    obtain ⟨rest, hcs, hfs⟩ := appendRecStrList_flat b lvl cs hob.2
    refine ⟨s ++ rest, ?_, ?_⟩
    · simp [appendRecStrList, hc, hcs]
    · simp [traverseDList, strConcat_append, hf, hfs]
end

theorem data_take_append (n : Nat) (s t : String) (h : n ≤ s.data.length) :
    (s ++ t).data.take n = s.data.take n := by
  rw [String.data_append]
  exact List.take_append_of_le_length h

theorem ne_of_take_two (s x t : String) (hs : 2 ≤ s.data.length)
    (hne : s.data.take 2 ≠ t.data.take 2) : s ++ x ≠ t := by
  intro h
  have h2 := congrArg (fun u : String => u.data.take 2) h
  simp only at h2
  rw [data_take_append 2 s x hs] at h2
  exact hne (h2.trans (by
    have hlen : t.data.take 2 = t.data.take 2 := rfl
    exact hlen))

theorem rich_best_marker_ne_bug (b : Option Nat) (n m : Node)
    (hn : n.is_buggy = false) (hb : some n.id = b) (hm : m.is_buggy = true) :
    richLabel b n ≠ richLabel b m := by
  obtain ⟨i, bg, mo, cs⟩ := n
  obtain ⟨i2, bg2, mo2, cs2⟩ := m
  simp only [Node.is_buggy] at hn hm
  simp only [Node.id] at hb
  subst hn; subst hm
  cases mo with
  | none => simp [richLabel, Node.is_buggy, Node.metric]
  | some v =>
    simp only [richLabel, Node.is_buggy, Node.metric, Node.id]
    simp only [Bool.false_eq_true, if_false, if_true, hb, if_pos]
    intro h
    have h2 : ("[bold green]● " ++ toString v ++ " (best)") = "[red]◍ bug" := by
      simpa using h
    rw [String.append_assoc] at h2
    exact ne_of_take_two "[bold green]● " (toString v ++ " (best)")
      "[red]◍ bug" (by decide) (by decide) h2

theorem rich_best_marker_ne_plain (b : Option Nat) (n m : Node)
    (hn : n.is_buggy = false) (hb : some n.id = b)
    (hnm : n.metric.isSome = true) (hm : m.is_buggy = false)
    (hmb : some m.id ≠ b) : richLabel b n ≠ richLabel b m := by
  obtain ⟨i, bg, mo, cs⟩ := n
  obtain ⟨i2, bg2, mo2, cs2⟩ := m
  simp only [Node.is_buggy] at hn hm
  simp only [Node.id] at hb hmb
  simp only [Node.metric] at hnm
  subst hn; subst hm
  obtain ⟨v, hv⟩ := Option.isSome_iff_exists.mp hnm
  subst hv
  cases mo2 with
  | none => simp [richLabel, Node.is_buggy, Node.metric, Node.id, hb]
  | some w =>
    simp only [richLabel, Node.is_buggy, Node.metric, Node.id,
      Bool.false_eq_true, if_false, hb, if_pos, hmb, if_neg]
    intro h
    have h2 : ("[bold green]● " ++ toString v ++ " (best)") =
        "[green]● " ++ toString w := by simpa using h
    rw [String.append_assoc] at h2
    have h3 := congrArg (fun u : String => u.data.take 2) h2
    simp only at h3
    rw [data_take_append 2 "[bold green]● " _ (by decide),
      data_take_append 2 "[green]● " _ (by decide)] at h3
    exact absurd h3 (by decide)

theorem string_best_line_ne_bug (b : Option Nat) (lvl : Nat) (n m : Node)
    (hn : n.is_buggy = false) (hb : some n.id = b) (hm : m.is_buggy = true) :
    stringLine b lvl n ≠ stringLine b lvl m := by
  obtain ⟨i, bg, mo, cs⟩ := n
  obtain ⟨i2, bg2, mo2, cs2⟩ := m
  simp only [Node.is_buggy] at hn hm
  simp only [Node.id] at hb
  subst hn; subst hm
  cases mo with
  | none => simp [stringLine, Node.is_buggy, Node.metric]
  | some v =>
    simp only [stringLine, Node.is_buggy, Node.metric, Node.id,
      Bool.false_eq_true, if_false, if_true, hb, if_pos]
    intro h
    have h2 := Option.some.inj h
    have h3 := congrArg String.data h2
    simp only [String.data_append, List.append_assoc] at h3
    have h4 := List.append_cancel_left h3
    have h5 := congrArg (List.take 1) h4
    rw [List.take_append_of_le_length (by decide),
      List.take_append_of_le_length (by decide)] at h5
    exact absurd h5 (by decide)

theorem string_best_line_ne_unmarked (b b2 : Option Nat) (lvl : Nat)
    (n : Node) (hn : n.is_buggy = false) (hnm : n.metric.isSome = true)
    (hb : some n.id = b) (hb2 : some n.id ≠ b2) :
    stringLine b lvl n ≠ stringLine b2 lvl n := by
  obtain ⟨i, bg, mo, cs⟩ := n
  simp only [Node.is_buggy] at hn
  simp only [Node.id] at hb hb2
  simp only [Node.metric] at hnm
  subst hn
  obtain ⟨v, hv⟩ := Option.isSome_iff_exists.mp hnm
  subst hv
  simp only [stringLine, Node.is_buggy, Node.metric, Node.id,
    Bool.false_eq_true, if_false]
  rw [if_pos hb, if_neg hb2]
  intro h
  have h2 := Option.some.inj h
  have h3 := congrArg String.length h2
  simp only [String.length_append] at h3
  have h13 : (" (best) (ID: " : String).length = 13 := rfl
  have h6 : (" (ID: " : String).length = 6 := rfl
  rw [h13, h6] at h3
  omega

/-! ## Claim theorems about the renderers -/

/-- C9: both tree renderers dereference the metric of every non-buggy
node; they succeed exactly when every non-buggy node in the journal has a
present metric, and fail (rather than render) otherwise. -/
theorem renderers_total_iff_metrics_present : ∀ j : Journal,
    (journal_to_rich_tree j).isSome = j.renderOk ∧
    (journal_to_string_tree j).isSome = j.renderOk := by
  intro j
  constructor
  · have h := appendRecRichList_isSome (bestId j) j.draft_nodes
    simp only [journal_to_rich_tree, Journal.renderOk]
    cases h1 : appendRecRichList (bestId j) j.draft_nodes <;>
      rw [h1] at h <;> simp_all
  · have h := appendRecStrList_isSome (bestId j) 0 j.draft_nodes
    simp only [journal_to_string_tree, Journal.renderOk]
    cases h1 : appendRecStrList (bestId j) 0 j.draft_nodes <;>
      rw [h1] at h <;> simp_all

/-- C8: on every renderable journal the two renderers visit exactly the
nodes of the pre-order `traverse()` walk in exactly its order (draft nodes
in insertion order, children in insertion order, every node exactly once),
and both mark the best node distinctly from buggy and ordinary nodes. -/
theorem renderers_same_order_and_markers : ∀ j : Journal,
    j.renderOk = true → RenderAgreeProp j ∧ bestMarkersDistinct := by
  intro j hok
  refine ⟨⟨?_, ?_, ?_⟩, ?_, ?_, ?_, ?_⟩
  · obtain ⟨ts, hts, hflat⟩ :=
      appendRecRichList_flat (bestId j) 0 j.draft_nodes hok
    refine ⟨RTree.node "[bold blue]Solution tree" ts, ?_, ?_⟩
    · simp [journal_to_rich_tree, hts]
    · simp [RTree.flat, hflat, Journal.traverse]
  · obtain ⟨s, hs, hf⟩ :=
      appendRecStrList_flat (bestId j) 0 j.draft_nodes hok
    simp [journal_to_string_tree, hs, hf, Journal.traverse]
  · simp [Journal.traverse, Journal.size, traverseDList_length]
  · exact fun b n m hn hb hm => rich_best_marker_ne_bug b n m hn hb hm
  · exact fun b n m hn hb hnm hm hmb =>
      rich_best_marker_ne_plain b n m hn hb hnm hm hmb
  · exact fun b lvl n m hn hb hm => string_best_line_ne_bug b lvl n m hn hb hm
  · exact fun b b2 lvl n hn hnm hb hb2 =>
      string_best_line_ne_unmarked b b2 lvl n hn hnm hb hb2

theorem renderers_same_order_and_markers_witness :
    jW.renderOk = true ∧ (RenderAgreeProp jW ∧ bestMarkersDistinct) :=
  ⟨rfl, renderers_same_order_and_markers jW rfl⟩

/-! ## Lemmas about the controller loop -/

theorem loopTraceInv_refl (st : LoopSt) : loopTraceInv st st :=
  ⟨[], by simp, by simp, by simp, by simp, fun _ => rfl⟩

theorem loopTraceInv_prepend (st1 st2 st3 : LoopSt) (evs : List Ev)
    (htr : st2.trace = st1.trace ++ evs)
    (hevs : ∀ e ∈ evs,
      Ev.isFinalCkpt e = false ∧ e ≠ Ev.disarm ∧ e ≠ Ev.timeoutLog)
    (hcnt : evs.count Ev.cancelDelivered = 0)
    (harm : st2.armed = st1.armed)
    (hinv : loopTraceInv st2 st3) : loopTraceInv st1 st3 := by
  obtain ⟨ext, htr2, hevs2, hcnt2, hmem, hnmem⟩ := hinv
  refine ⟨evs ++ ext, ?_, ?_, ?_, ?_, ?_⟩
  · rw [htr2, htr, List.append_assoc]
  · intro e he
    rcases List.mem_append.mp he with h | h
    · exact hevs e h
    · exact hevs2 e h
  · rw [List.count_append, hcnt]
    simpa using hcnt2
  · intro hm
    rcases List.mem_append.mp hm with h | h
    · exact absurd h (List.count_eq_zero.mp hcnt)
    · exact hmem h
  · intro hnm
    have hx : Ev.cancelDelivered ∉ ext :=
      fun hx => hnm (List.mem_append.mpr (Or.inr hx))
    rw [hnmem hx, harm]

theorem loopModel_inv (p : Params) : ∀ (fuel i : Nat) (st : LoopSt),
    (∀ st', loopModel p fuel i st = LoopRes.done st' → loopTraceInv st st') ∧
    (∀ e st', loopModel p fuel i st = LoopRes.raised e st' →
      loopTraceInv st st') := by
  intro fuel
  induction fuel with
  | zero =>
    intro i st
    constructor
    · intro st' h
      by_cases hg : st.gstep < p.budget <;> simp [loopModel, hg] at h
      rw [← h]
      exact loopTraceInv_refl st
    · intro e st' h
      by_cases hg : st.gstep < p.budget <;> simp [loopModel, hg] at h
  | succ fuel ih =>
    intro i st
    by_cases hg : st.gstep < p.budget
    · cases hd : stepDelivers p i st.armed with
      | some k =>
        constructor
        · intro st' h
          simp [loopModel, hg, hd] at h
        · intro e st' h
          simp [loopModel, hg, hd] at h
          obtain ⟨he, hst⟩ := h
          rw [← hst]
          refine ⟨[Ev.stepCall i, Ev.cancelDelivered], by simp, ?_, by simp,
            by intro _; rfl, by intro hn; exact absurd (by simp) hn⟩
          intro e he
          simp at he
          rcases he with rfl | rfl <;> simp [Ev.isFinalCkpt]
      | none =>
        cases hsb : p.stepBeh i with
        | raiseErr n =>
          constructor
          · intro st' h
            simp [loopModel, hg, hd, hsb] at h
          · intro e st' h
            simp [loopModel, hg, hd, hsb] at h
            obtain ⟨he, hst⟩ := h
            rw [← hst]
            refine ⟨[Ev.stepCall i], by simp, ?_, by simp, by simp,
              fun _ => rfl⟩
            intro e he
            simp at he
            rw [he]
            simp [Ev.isFinalCkpt]
        | ok n =>
          cases hc : p.ckptBeh st.ckptIdx with
          | true =>
            constructor
            · intro st' h
              simp [loopModel, hg, hd, hsb, hc] at h
            · intro e st' h
              simp [loopModel, hg, hd, hsb, hc] at h
              obtain ⟨he, hst⟩ := h
              rw [← hst]
              refine ⟨[Ev.stepCall i, Ev.loopCkpt (st.journal + n)],
                by simp, ?_, by simp, by simp, fun _ => rfl⟩
              intro e he
              simp at he
              rcases he with rfl | rfl <;> simp [Ev.isFinalCkpt]
          | false =>
            constructor
            · intro st' h
              simp only [loopModel, hg, if_true, hd, hsb, hc] at h
              refine loopTraceInv_prepend st _ st'
                [Ev.stepCall i, Ev.loopCkpt (st.journal + n)]
                (by simp) ?_ (by simp) (by simp)
                ((ih (i+1) _).1 st' h)
              intro e he
              simp at he
              rcases he with rfl | rfl <;> simp [Ev.isFinalCkpt]
            · intro e st' h
              simp only [loopModel, hg, if_true, hd, hsb, hc] at h
              refine loopTraceInv_prepend st _ st'
                [Ev.stepCall i, Ev.loopCkpt (st.journal + n)]
                (by simp) ?_ (by simp) (by simp)
                ((ih (i+1) _).2 e st' h)
              intro e he
              simp at he
              rcases he with rfl | rfl <;> simp [Ev.isFinalCkpt]
    · constructor
      · intro st' h
        simp [loopModel, hg] at h
        rw [← h]
        exact loopTraceInv_refl st
      · intro e st' h
        simp [loopModel, hg] at h

theorem loopModel_signal_disarms (p : Params) : ∀ (fuel i : Nat)
    (st st' : LoopSt),
    loopModel p fuel i st = LoopRes.raised Err.signalExn st' →
    st'.armed = false := by
  intro fuel
  induction fuel with
  | zero =>
    intro i st st' h
    by_cases hg : st.gstep < p.budget <;> simp [loopModel, hg] at h
  | succ fuel ih =>
    intro i st st' h
    by_cases hg : st.gstep < p.budget
    · cases hd : stepDelivers p i st.armed with
      | some k =>
        simp [loopModel, hg, hd] at h
        rw [← h]
      | none =>
        cases hsb : p.stepBeh i with
        | raiseErr n => simp [loopModel, hg, hd, hsb] at h
        | ok n =>
          cases hc : p.ckptBeh st.ckptIdx with
          | true => simp [loopModel, hg, hd, hsb, hc] at h
          | false =>
            simp only [loopModel, hg, if_true, hd, hsb, hc] at h
            exact ih (i+1) _ st' h
    · simp [loopModel, hg] at h

theorem finallyBlock_spec (p : Params) (armed0 : Bool) (j ck : Nat)
    (pre : List Ev) (inflight : Option Err)
    (hF : pre.countP Ev.isFinalCkpt = 0) (hD : Ev.disarm ∉ pre)
    (hC : pre.count Ev.cancelDelivered ≤ 1)
    (hCA : Ev.cancelDelivered ∈ pre → armed0 = false) :
    ((finallyBlock p armed0 j ck pre inflight).2.2.countP
        Ev.isFinalCkpt = 1) ∧
    (Ev.finalCkpt j ∈ (finallyBlock p armed0 j ck pre inflight).2.2) ∧
    (Ev.disarm ∈ (finallyBlock p armed0 j ck pre inflight).2.2 →
      (finallyBlock p armed0 j ck pre inflight).2.1 = false) ∧
    ((finallyBlock p armed0 j ck pre inflight).2.2.count
        Ev.cancelDelivered ≤ 1) ∧
    (Ev.disarm ∈ (finallyBlock p armed0 j ck pre inflight).2.2 →
      (finallyBlock p armed0 j ck pre inflight).2.2.getLast? =
        some Ev.disarm) := by
  unfold finallyBlock
  by_cases hb : p.fire = FirePoint.duringFinalCkpt ∧ armed0 = true
  · rw [if_pos hb]
    have hnc : Ev.cancelDelivered ∉ pre := by
      intro hm
      rw [hCA hm] at hb
      exact Bool.false_ne_true hb.2
    refine ⟨?_, ?_, ?_, ?_, ?_⟩
    · simp [List.countP_append, hF, Ev.isFinalCkpt]
    · simp
    · intro hm
      simp [hD] at hm
    · simp [List.count_append, List.count_eq_zero.mpr hnc, Ev.isFinalCkpt]
    · intro hm
      simp [hD] at hm
  · rw [if_neg hb]
    by_cases hk : p.ckptBeh ck = true
    · rw [if_pos hk]
      refine ⟨?_, ?_, ?_, ?_, ?_⟩
      · simp [List.countP_append, hF, Ev.isFinalCkpt]
      · simp
      · intro hm
        simp [hD] at hm
      · simp [List.count_append, Ev.isFinalCkpt]
        omega
      · intro hm
        simp [hD] at hm
    · rw [if_neg hk]
      refine ⟨?_, ?_, ?_, ?_, ?_⟩
      · simp [List.countP_append, hF, Ev.isFinalCkpt]
      · simp
      · intro _
        rfl
      · simp [List.count_append, Ev.isFinalCkpt]
        omega
      · intro _
        simp

theorem runModel_trace_struct : ∀ (p : Params) (fuel : Nat) (r : RunResult),
    runModel p fuel = some r →
    ∃ (pre : List Ev) (armed0 : Bool) (inflight : Option Err) (ck : Nat),
      (r.exit, r.armed, r.trace) =
        finallyBlock p armed0 r.journal ck pre inflight ∧
      pre.countP Ev.isFinalCkpt = 0 ∧ Ev.disarm ∉ pre ∧
      pre.count Ev.cancelDelivered ≤ 1 ∧
      (Ev.cancelDelivered ∈ pre → armed0 = false) := by
  intro p fuel r h
  unfold runModel at h
  by_cases h1 : p.fire = FirePoint.duringInit
  · rw [if_pos h1] at h
    have hr := (Option.some.inj h).symm
    subst hr
    exact ⟨[Ev.cancelDelivered, Ev.timeoutLog], false, none, 0, rfl,
      by decide, by decide, by decide, fun _ => rfl⟩
  · rw [if_neg h1] at h
    by_cases h2 : p.initFails = true
    · rw [if_pos h2] at h
      have hr := (Option.some.inj h).symm
      subst hr
      exact ⟨[], true, some Err.initErr, 0, rfl,
        by decide, by decide, by decide, by simp⟩
    · rw [if_neg h2] at h
      cases hl : loopModel p fuel 0 initLoopSt with
      | fuelOut => rw [hl] at h; exact absurd h (by simp)
      | done st =>
        rw [hl] at h
        have hr := (Option.some.inj h).symm
        subst hr
        obtain ⟨ext, htr, hevs, hcnt, hmem, hnmem⟩ :=
          (loopModel_inv p fuel 0 initLoopSt).1 st hl
        simp only [initLoopSt, List.nil_append] at htr
        refine ⟨st.trace, st.armed, none, st.ckptIdx, rfl, ?_, ?_, ?_, ?_⟩
        · rw [htr]
          exact List.countP_eq_zero.mpr fun e he => by
            rw [(hevs e he).1]
            simp
        · rw [htr]
          intro hm
          exact (hevs _ hm).2.1 rfl
        · rw [htr]
          exact hcnt
        · rw [htr]
          exact hmem
      | raised e st =>
        rw [hl] at h
        have hr := (Option.some.inj h).symm
        subst hr
        obtain ⟨ext, htr, hevs, hcnt, hmem, hnmem⟩ :=
          (loopModel_inv p fuel 0 initLoopSt).2 e st hl
        simp only [initLoopSt, List.nil_append] at htr
        have h0 : List.countP Ev.isFinalCkpt ext = 0 :=
          List.countP_eq_zero.mpr fun e' he' => by
            rw [(hevs e' he').1]
            simp
        by_cases he : e = Err.signalExn
        · refine ⟨st.trace ++ [Ev.timeoutLog], st.armed, none, st.ckptIdx,
            ?_, ?_, ?_, ?_, ?_⟩
          · simp [he]
          · rw [htr, List.countP_append]
            simp [h0, Ev.isFinalCkpt]
          · rw [htr]
            intro hm
            simp only [List.mem_append, List.mem_singleton] at hm
            rcases hm with hm | hm
            · exact (hevs _ hm).2.1 rfl
            · cases hm
          · rw [htr, List.count_append]
            have hone : List.count Ev.cancelDelivered [Ev.timeoutLog] = 0 :=
              by decide
            omega
          · rw [htr]
            intro hm
            simp only [List.mem_append, List.mem_singleton] at hm
            rcases hm with hm | hm
            · exact hmem hm
            · cases hm
        · refine ⟨st.trace, st.armed, some e, st.ckptIdx, ?_, ?_, ?_, ?_, ?_⟩
          · simp [he]
          · rw [htr]
            exact h0
          · rw [htr]
            intro hm
            exact (hevs _ hm).2.1 rfl
          · rw [htr]
            exact hcnt
          · rw [htr]
            exact hmem

/-- C2 (amended): on every exit of the modelled `run()` the `finally`
block calls `save_run` exactly once more — on the failure path included —
recording the journal's final size; and whenever the `signal.alarm(0)`
disarm actually executed, no further cancellation is possible.  (The
disarm itself is skipped when the final checkpoint raises; see the
counterexample.) -/
theorem final_checkpoint_unconditional : ∀ (p : Params) (fuel : Nat)
    (r : RunResult), runModel p fuel = some r →
    r.trace.countP Ev.isFinalCkpt = 1 ∧ Ev.finalCkpt r.journal ∈ r.trace ∧
    (Ev.disarm ∈ r.trace → r.armed = false) := by
  intro p fuel r h
  obtain ⟨pre, armed0, inflight, ck, heq, hF, hD, hC, hCA⟩ :=
    runModel_trace_struct p fuel r h
  have hs := finallyBlock_spec p armed0 r.journal ck pre inflight hF hD hC hCA
  have harm : r.armed =
      (finallyBlock p armed0 r.journal ck pre inflight).2.1 :=
    congrArg (fun t : Option Err × Bool × List Ev => t.2.1) heq
  have htr : r.trace =
      (finallyBlock p armed0 r.journal ck pre inflight).2.2 :=
    congrArg (fun t : Option Err × Bool × List Ev => t.2.2) heq
  rw [htr, harm]
  exact ⟨hs.1, hs.2.1, hs.2.2.1⟩

/-- C2 counterexample: when the final checkpoint itself raises, the
`signal.alarm(0)` after it never runs, so the guard is left armed on that
exit — the claim's "disarms the deadline guard" does not hold on every
exit. -/
theorem disarm_skipped_on_final_checkpoint_failure :
    runModel pC2cx 1 = some
      { exit := some Err.ckptErr, journal := 0, gstep := some 0,
        armed := true, trace := [Ev.finalCkpt 0],
        cleanup := CleanupRes.deleted } := by
  rfl

theorem final_checkpoint_unconditional_witness :
    runModel pC2w 1 = some rC2w ∧
    (rC2w.trace.countP Ev.isFinalCkpt = 1 ∧
      Ev.finalCkpt rC2w.journal ∈ rC2w.trace ∧
      (Ev.disarm ∈ rC2w.trace → rC2w.armed = false)) :=
  ⟨rfl, final_checkpoint_unconditional pC2w 1 rC2w rfl⟩

/-- C4 (amended): per modelled run, at most one cancellation event is ever
delivered, and once the `signal.alarm(0)` disarm has executed it is the
last thing that happens — no cancellation (nor anything else) can occur
after it.  However, the disarm only runs at the end of the `finally`
block, so a still-armed alarm can fire during the final checkpoint even
after normal loop completion (see the counterexample). -/
theorem cancellation_at_most_once : ∀ (p : Params) (fuel : Nat)
    (r : RunResult), runModel p fuel = some r →
    r.trace.count Ev.cancelDelivered ≤ 1 ∧
    (Ev.disarm ∈ r.trace → r.trace.getLast? = some Ev.disarm) := by
  intro p fuel r h
  obtain ⟨pre, armed0, inflight, ck, heq, hF, hD, hC, hCA⟩ :=
    runModel_trace_struct p fuel r h
  have hs := finallyBlock_spec p armed0 r.journal ck pre inflight hF hD hC hCA
  have htr : r.trace =
      (finallyBlock p armed0 r.journal ck pre inflight).2.2 :=
    congrArg (fun t : Option Err × Bool × List Ev => t.2.2) heq
  rw [htr]
  exact ⟨hs.2.2.2.1, hs.2.2.2.2⟩

/-- C4 counterexample: the loop completes normally (budget 0), yet the
still-armed alarm delivers its cancellation during the final checkpoint —
after normal loop completion a cancellation can still occur. -/
theorem cancellation_during_final_checkpoint_after_completion :
    runModel pC4cx 1 = some
      { exit := some Err.signalExn, journal := 0, gstep := some 0,
        armed := false, trace := [Ev.finalCkpt 0, Ev.cancelDelivered],
        cleanup := CleanupRes.deleted } := by
  rfl

theorem cancellation_at_most_once_witness :
    runModel pC4w 1 = some rC4w ∧
    (rC4w.trace.count Ev.cancelDelivered ≤ 1 ∧
      (Ev.disarm ∈ rC4w.trace → rC4w.trace.getLast? = some Ev.disarm)) :=
  ⟨rfl, cancellation_at_most_once pC4w 1 rC4w rfl⟩

/-- C5 (amended): a cancellation raised inside the `try` body (here:
inside a step call) is caught at the single `except SignalException`
handler, logged, and does not propagate — `run()` returns normally, as on
completion.  (A cancellation firing during the final checkpoint instead
escapes uncaught; see the counterexample.) -/
theorem timeout_caught_logged_clean_exit : ∀ (p : Params) (fuel : Nat)
    (st : LoopSt),
    p.fire ≠ FirePoint.duringInit → p.initFails = false →
    loopModel p fuel 0 initLoopSt = LoopRes.raised Err.signalExn st →
    p.ckptBeh st.ckptIdx = false →
    ∃ r, runModel p fuel = some r ∧ r.exit = none ∧
      Ev.timeoutLog ∈ r.trace ∧ r.armed = false := by
  intro p fuel st h1 h2 hl hk
  have ha : st.armed = false :=
    loopModel_signal_disarms p fuel 0 initLoopSt st hl
  unfold runModel
  rw [if_neg h1]
  rw [if_neg (by simp [h2] : ¬ p.initFails = true)]
  rw [hl]
  refine ⟨_, rfl, ?_, ?_, ?_⟩
  · simp [finallyBlock, ha, hk]
  · simp [finallyBlock, ha, hk]
  · simp [finallyBlock, ha, hk]

/-- C5 counterexample: the cancellation fires during the final checkpoint
of a normally completed run; it is not caught, not logged, and `run()`
propagates `SignalException` — a timeout that ends the process with an
error. -/
theorem timeout_during_final_checkpoint_propagates :
    runModel pC5cx 2 = some
      { exit := some Err.signalExn, journal := 1, gstep := some 1,
        armed := false,
        trace := [Ev.stepCall 0, Ev.loopCkpt 1, Ev.finalCkpt 1,
          Ev.cancelDelivered],
        cleanup := CleanupRes.kept } ∧
    Ev.timeoutLog ∉ [Ev.stepCall 0, Ev.loopCkpt 1, Ev.finalCkpt 1,
      Ev.cancelDelivered] :=
  ⟨rfl, by decide⟩

theorem timeout_caught_logged_clean_exit_witness :
    (pC5w.fire ≠ FirePoint.duringInit) ∧ pC5w.initFails = false ∧
    loopModel pC5w 2 0 initLoopSt = LoopRes.raised Err.signalExn stC5w ∧
    pC5w.ckptBeh stC5w.ckptIdx = false ∧
    (∃ r, runModel pC5w 2 = some r ∧ r.exit = none ∧
      Ev.timeoutLog ∈ r.trace ∧ r.armed = false) :=
  ⟨by decide, rfl, by decide, rfl,
    timeout_caught_logged_clean_exit pC5w 2 stC5w (by decide) rfl
      (by decide) rfl⟩

/-- C3 (amended): an error other than deadline-exceeded raised inside the
loop propagates out of `run()` unmodified, and only after the final
checkpoint has run — provided that final checkpoint does not itself
raise.  When it does raise, its failure replaces the in-flight primary
error (see the counterexample). -/
theorem step_error_propagates_after_final_checkpoint :
    ∀ (p : Params) (fuel : Nat) (e : Err) (st : LoopSt),
    p.fire ≠ FirePoint.duringInit → p.initFails = false →
    p.fire ≠ FirePoint.duringFinalCkpt →
    loopModel p fuel 0 initLoopSt = LoopRes.raised e st →
    e ≠ Err.signalExn → p.ckptBeh st.ckptIdx = false →
    ∃ r, runModel p fuel = some r ∧ r.exit = some e ∧
      Ev.finalCkpt st.journal ∈ r.trace := by
  intro p fuel e st h1 h2 h3 hl he hk
  unfold runModel
  rw [if_neg h1]
  rw [if_neg (by simp [h2] : ¬ p.initFails = true)]
  rw [hl]
  refine ⟨_, rfl, ?_, ?_⟩
  · simp [finallyBlock, he, h3, hk]
  · simp [finallyBlock, he, h3, hk]

/-- C3 counterexample: the first step raises a step error, and the final
checkpoint in `finally` raises too; per Python semantics the checkpoint
failure replaces the in-flight step error, so `run()` exits with the
checkpoint error — the primary error is masked. -/
theorem final_checkpoint_failure_masks_step_error :
    runModel pC3cx 1 = some
      { exit := some Err.ckptErr, journal := 0, gstep := some 0,
        armed := true, trace := [Ev.stepCall 0, Ev.finalCkpt 0],
        cleanup := CleanupRes.deleted } ∧
    pC3cx.stepBeh 0 = StepBeh.raiseErr 0 ∧
    (Err.ckptErr ≠ Err.stepErr) :=
  ⟨rfl, rfl, by decide⟩

theorem step_error_propagates_after_final_checkpoint_witness :
    (pC3w.fire ≠ FirePoint.duringInit) ∧ pC3w.initFails = false ∧
    (pC3w.fire ≠ FirePoint.duringFinalCkpt) ∧
    loopModel pC3w 1 0 initLoopSt = LoopRes.raised Err.stepErr stC3w ∧
    (Err.stepErr ≠ Err.signalExn) ∧ pC3w.ckptBeh stC3w.ckptIdx = false ∧
    (∃ r, runModel pC3w 1 = some r ∧ r.exit = some Err.stepErr ∧
      Ev.finalCkpt stC3w.journal ∈ r.trace) :=
  ⟨by decide, rfl, by decide, by decide, by decide, rfl,
    step_error_propagates_after_final_checkpoint pC3w 1 Err.stepErr stC3w
      (by decide) rfl (by decide) (by decide) (by decide) rfl⟩

/-- C10: the cleanup hook is registered before `global_step` is first
assigned; if the run terminates during `Interpreter` construction —
whether because the deadline fires there or because construction raises —
the hook finds `global_step` unbound and crashes with a `NameError`
instead of performing the deletion check. -/
theorem cleanup_crashes_when_counter_unbound : ∀ (p : Params) (fuel : Nat),
    p.fire = FirePoint.duringInit ∨ p.initFails = true →
    ∃ r, runModel p fuel = some r ∧ r.cleanup = CleanupRes.nameError ∧
      r.gstep = none := by
  intro p fuel h
  by_cases h1 : p.fire = FirePoint.duringInit
  · unfold runModel
    rw [if_pos h1]
    exact ⟨_, rfl, rfl, rfl⟩
  · have h2 : p.initFails = true := h.resolve_left h1
    unfold runModel
    rw [if_neg h1, if_pos h2]
    exact ⟨_, rfl, rfl, rfl⟩

theorem cleanup_crashes_when_counter_unbound_witness :
    (pC10w.fire = FirePoint.duringInit ∨ pC10w.initFails = true) ∧
    (∃ r, runModel pC10w 1 = some r ∧ r.cleanup = CleanupRes.nameError ∧
      r.gstep = none) :=
  ⟨Or.inl rfl, cleanup_crashes_when_counter_unbound pC10w 1 (Or.inl rfl)⟩

theorem loopModel_ok_run (p : Params)
    (hsb : ∀ i, p.stepBeh i = StepBeh.ok 1)
    (hck : ∀ c, p.ckptBeh c = false)
    (hf : p.fire = FirePoint.never) :
    ∀ (fuel g ck : Nat) (tr : List Ev), g ≤ p.budget →
    p.budget - g ≤ fuel →
    loopModel p fuel g
      { journal := g, gstep := g, ckptIdx := ck,
        armed := true, trace := tr } =
    LoopRes.done
      { journal := p.budget, gstep := p.budget,
        ckptIdx := ck + (p.budget - g), armed := true,
        trace := tr ++ ((List.range' g (p.budget - g)).map
          (fun j => [Ev.stepCall j, Ev.loopCkpt (j+1)])).flatten } := by
  intro fuel
  induction fuel with
  | zero =>
    intro g ck tr hg hfuel
    have hge : g = p.budget := by omega
    subst hge
    simp [loopModel, Nat.sub_self]
  | succ fuel ih =>
    intro g ck tr hg hfuel
    by_cases hlt : g < p.budget
    · have hd : stepDelivers p g true = none := by simp [stepDelivers, hf]
      have step1 : loopModel p (fuel+1) g
          { journal := g, gstep := g, ckptIdx := ck,
            armed := true, trace := tr } =
          loopModel p fuel (g+1)
            { journal := g+1, gstep := g+1, ckptIdx := ck+1,
              armed := true,
              trace := tr ++ [Ev.stepCall g, Ev.loopCkpt (g+1)] } := by
        simp [loopModel, hlt, hd, hsb g, hck ck]
      rw [step1, ih (g+1) (ck+1)
        (tr ++ [Ev.stepCall g, Ev.loopCkpt (g+1)]) (by omega) (by omega)]
      have harith : ck + 1 + (p.budget - (g+1)) = ck + (p.budget - g) := by
        omega
      have hrange : List.range' g (p.budget - g) =
          g :: List.range' (g+1) (p.budget - (g+1)) := by
        have hh : p.budget - g = (p.budget - (g+1)) + 1 := by omega
        rw [hh, List.range'_succ]
      rw [hrange]
      simp [harith, List.append_assoc]
    · have hge : g = p.budget := by omega
      subst hge
      simp [loopModel, Nat.sub_self]

/-- C6: starting from the empty journal, when every step invocation
inserts exactly one node and neither cancellation nor failure occurs, the
loop invokes the step function exactly `step_budget` times — the trace is
exactly `step_budget` step calls, each followed by its checkpoint at the
recomputed journal size, then the final checkpoint and the disarm — and
the number of step invocations equals the budget, never budget + 1. -/
theorem loop_runs_exactly_budget_steps : ∀ (p : Params) (fuel : Nat),
    p.fire = FirePoint.never → p.initFails = false →
    (∀ i, p.stepBeh i = StepBeh.ok 1) → (∀ c, p.ckptBeh c = false) →
    p.budget ≤ fuel →
    (runModel p fuel = some
      { exit := none, journal := p.budget, gstep := some p.budget,
        armed := false,
        trace := ((List.range p.budget).map
          (fun j => [Ev.stepCall j, Ev.loopCkpt (j+1)])).flatten ++
          [Ev.finalCkpt p.budget, Ev.disarm],
        cleanup := cleanupHook (some p.budget) } ∧
    (((List.range p.budget).map
        (fun j => [Ev.stepCall j, Ev.loopCkpt (j+1)])).flatten).countP
      Ev.isStepCall = p.budget) := by
  intro p fuel hf h2 hsb hck hfl
  constructor
  · unfold runModel
    rw [if_neg (by simp [hf] : ¬ p.fire = FirePoint.duringInit)]
    rw [if_neg (by simp [h2] : ¬ p.initFails = true)]
    have hinit : initLoopSt =
        { journal := 0, gstep := 0, ckptIdx := 0,
          armed := true, trace := ([] : List Ev) } := rfl
    have hloop := loopModel_ok_run p hsb hck hf fuel 0 0 []
      (by omega) (by omega)
    rw [hinit, hloop]
    have hr : List.range' 0 (p.budget - 0) = List.range p.budget := by
      rw [Nat.sub_zero]
      exact (List.range_eq_range' p.budget).symm
    rw [hr]
    simp [finallyBlock, hf, hck]
  · have hcount : ∀ n : Nat, (((List.range n).map
        (fun j => [Ev.stepCall j, Ev.loopCkpt (j+1)])).flatten).countP
          Ev.isStepCall = n := by
      intro n
      induction n with
      | zero => simp
      | succ n ihn =>
        rw [List.range_succ]
        simp [List.countP_append, ihn, Ev.isStepCall]
    exact hcount p.budget

theorem loop_runs_exactly_budget_steps_witness :
    pC6w.fire = FirePoint.never ∧ pC6w.initFails = false ∧
    (∀ i, pC6w.stepBeh i = StepBeh.ok 1) ∧
    (∀ c, pC6w.ckptBeh c = false) ∧ pC6w.budget ≤ 3 ∧
    (runModel pC6w 3 = some
      { exit := none, journal := pC6w.budget, gstep := some pC6w.budget,
        armed := false,
        trace := ((List.range pC6w.budget).map
          (fun j => [Ev.stepCall j, Ev.loopCkpt (j+1)])).flatten ++
          [Ev.finalCkpt pC6w.budget, Ev.disarm],
        cleanup := cleanupHook (some pC6w.budget) } ∧
    (((List.range pC6w.budget).map
        (fun j => [Ev.stepCall j, Ev.loopCkpt (j+1)])).flatten).countP
      Ev.isStepCall = pC6w.budget) :=
  ⟨rfl, rfl, fun _ => rfl, fun _ => rfl, by decide,
    loop_runs_exactly_budget_steps pC6w 3 rfl rfl (fun _ => rfl)
      (fun _ => rfl) (by decide)⟩

/-- C7 (amended): the execution proxy forwards the call and returns or
re-raises exactly what the wrapped call produced (it never suppresses an
exception), emitting the begin-execution event first in every invocation;
the end-execution event is emitted exactly when the wrapped call returns
normally — on the exception path the proxy re-raises without emitting
it. -/
theorem exec_callback_preserves_semantics :
    ∀ {α β ε : Type} (run : α → Except ε β) (a : α),
    (exec_callback run a).2 = run a ∧
    (exec_callback run a).1.head? = some ExecEv.beginExec ∧
    (exec_callback run a).1 = (match run a with
      | Except.ok _ => [ExecEv.beginExec, ExecEv.endExec]
      | Except.error _ => [ExecEv.beginExec]) := by
  intro α β ε run a
  cases h : run a <;> simp [exec_callback, h]

/-- C7 counterexample: when the wrapped call raises, the proxy re-raises
the same failure but the end-execution observable event is never
emitted — the claim's unconditional begin/forward/end sequence does not
hold on the failure path. -/
theorem exec_callback_skips_end_event_on_error :
    (exec_callback (fun _ : Unit => (Except.error 0 : Except Nat Nat))
      ()).2 = Except.error 0 ∧
    ExecEv.endExec ∉
      (exec_callback (fun _ : Unit => (Except.error 0 : Except Nat Nat))
        ()).1 :=
  ⟨rfl, by decide⟩

theorem cleanupHook_deleted_iff (g : Option Nat) :
    cleanupHook g = CleanupRes.deleted ↔ g = some 0 := by
  cases g with
  | none => simp [cleanupHook]
  | some k => by_cases hk : k = 0 <;> simp [cleanupHook, hk]

theorem runModel_cleanup_eq : ∀ (p : Params) (fuel : Nat) (r : RunResult),
    runModel p fuel = some r → r.cleanup = cleanupHook r.gstep := by
  intro p fuel r h
  unfold runModel at h
  by_cases h1 : p.fire = FirePoint.duringInit
  · rw [if_pos h1] at h
    rw [← Option.some.inj h]
  · rw [if_neg h1] at h
    by_cases h2 : p.initFails = true
    · rw [if_pos h2] at h
      rw [← Option.some.inj h]
    · rw [if_neg h2] at h
      cases hl : loopModel p fuel 0 initLoopSt with
      | fuelOut => rw [hl] at h; exact absurd h (by simp)
      | done st => rw [hl] at h; rw [← Option.some.inj h]
      | raised e st => rw [hl] at h; rw [← Option.some.inj h]

/-- C1 (amended): the workspace-cleanup hook deletes the workspace iff the
progress counter `global_step` is `0` when the hook runs — not iff the
live journal size is `0`.  The counter is only reassigned after each
completed iteration's checkpoint, so it can lag the journal. -/
theorem cleanup_keyed_to_stale_counter : ∀ (p : Params) (fuel : Nat)
    (r : RunResult), runModel p fuel = some r →
    (r.cleanup = CleanupRes.deleted ↔ r.gstep = some 0) := by
  intro p fuel r h
  rw [runModel_cleanup_eq p fuel r h]
  exact cleanupHook_deleted_iff r.gstep

/-- C1 counterexample: the first step commits one node to the journal and
then raises; at process end the journal has size 1, yet the hook deletes
the workspace, because `global_step` was still `0`. -/
theorem cleanup_deletes_despite_nonempty_journal :
    runModel pC1cx 1 = some
      { exit := some Err.stepErr, journal := 1, gstep := some 0,
        armed := false,
        trace := [Ev.stepCall 0, Ev.finalCkpt 1, Ev.disarm],
        cleanup := CleanupRes.deleted } := by
  rfl

theorem cleanup_keyed_to_stale_counter_witness :
    runModel pC1w 1 = some rC1w ∧
    (rC1w.cleanup = CleanupRes.deleted ↔ rC1w.gstep = some 0) :=
  ⟨rfl, cleanup_keyed_to_stale_counter pC1w 1 rC1w rfl⟩

end Aide
